import Mathlib

/-!
Verification of the daily_ai_news pipeline: a shallow embedding in Lean 4 of
the text utilities, article curation, feed normalization, text chunking and
duration estimation routines of the repository, together with theorems that
settle the behavioral claims about them.

Conventions:
* JavaScript strings are embedded as `List Char` (each `Char` a UTF-16-ish
  code point; all inputs considered here are ASCII) with `String` wrappers
  where convenient.
* External oracles (OpenAI completions, Deepgram TTS, RSS HTTP fetches,
  `Date` parsing, `ffprobe`) are parameters of the embedded functions: a
  function that awaits an oracle takes the oracle response as an argument.
* Fallible code is embedded with `Except`: a thrown exception is `.error`.
-/

/-! ## JavaScript character and string primitives -/

/-- Character class of the JavaScript regexp `\s` (whitespace), restricted to
the code points that can occur in the inputs considered here. -/
def jsIsSpace (c : Char) : Bool :=
  c = ' ' || c = '\t' || c = '\n' || c = '\r' || c = '\x0b' || c = '\x0c' ||
  c = ' ' || c = '﻿'

/-- Character class of the JavaScript regexp `\w`: ASCII letters, digits and
underscore. -/
def jsIsWord (c : Char) : Bool :=
  ('a' ≤ c && c ≤ 'z') || ('A' ≤ c && c ≤ 'Z') || ('0' ≤ c && c ≤ '9') || c = '_'

/-- Embeds `String.prototype.toLowerCase` on ASCII letters. -/
def jsToLower (c : Char) : Char :=
  if 'A' ≤ c && c ≤ 'Z' then Char.ofNat (c.toNat + 32) else c

/-- Embeds `String.prototype.trim` on a character list: strip leading and trailing
whitespace. -/
def trimL (l : List Char) : List Char :=
  ((l.dropWhile jsIsSpace).reverse.dropWhile jsIsSpace).reverse

/-- Helper for `collapseSpacesL`: the flag records whether the previous
character was whitespace (so that a whitespace run already emitted its
single replacement space). -/
def collapseSpacesAux : Bool → List Char → List Char
  | _, [] => []
  | prevSpace, c :: rest =>
    if jsIsSpace c then
      if prevSpace then collapseSpacesAux true rest
      else ' ' :: collapseSpacesAux true rest
    else c :: collapseSpacesAux false rest

/-- Embeds `s.replace(/\s+/g, ' ')`: every maximal whitespace run becomes a single
space. -/
def collapseSpacesL (l : List Char) : List Char :=
  collapseSpacesAux false l

/-- Embeds `String.prototype.includes`: substring containment. -/
def jsIncludes : List Char → List Char → Bool
  | [], needle => needle.isEmpty
  | c :: rest, needle => needle.isPrefixOf (c :: rest) || jsIncludes rest needle

/-! ## src/utils/textUtils.ts -/

/-- Embeds `normalizeTitleForDedup` from src/utils/textUtils.ts:
lowercase, delete every character that is neither `\w` nor `\s`, collapse
whitespace runs to single spaces, trim. -/
def normalizeTitleForDedup (title : List Char) : List Char :=
  trimL (collapseSpacesL ((title.map jsToLower).filter (fun c => jsIsWord c || jsIsSpace c)))

/-- The recursion underlying `uniqueBy` from src/utils/textUtils.ts: the
JavaScript `filter` over a mutable `seen : Set<string>` becomes an explicit
accumulator of the keys seen so far. -/
def uniqueByAux (key : α → List Char) : List α → List (List Char) → List α
  | [], _ => []
  | x :: xs, seen =>
    if key x ∈ seen then uniqueByAux key xs seen
    else x :: uniqueByAux key xs (key x :: seen)

/-- Embeds `uniqueBy` from src/utils/textUtils.ts: keep the first occurrence of each
key. -/
def uniqueBy (arr : List α) (key : α → List Char) : List α :=
  uniqueByAux key arr []

/-- Embeds `truncateText` from src/utils/textUtils.ts. -/
def truncateText (text : List Char) (maxLength : Nat) : List Char :=
  if text.length ≤ maxLength then text
  else text.take (maxLength - 3) ++ "...".data

/-! ## Article data model (src/types.ts) -/

/-- The canonical `Article` record. `pubDate` is optional in the TypeScript
type; `none` embeds `undefined`. -/
structure Article where
  id : List Char
  source : List Char
  title : List Char
  link : List Char
  pubDate : Option (List Char)
  summary : List Char
deriving DecidableEq, Repr

/-! ## SHA-1 (node `crypto.createHash` with the sha1 algorithm), used by `generateArticleId` -/

namespace Sha1

/-- Truncate to a 32-bit word. -/
def mask32 (n : Nat) : Nat := n % 4294967296

/-- Left rotation on 32-bit words. -/
def rotl (k n : Nat) : Nat := mask32 ((n <<< k) ||| (n >>> (32 - k)))

/-- UTF-8 encoding of one code point (node hashes strings as UTF-8). -/
def utf8Bytes (c : Char) : List Nat :=
  let n := c.toNat
  if n < 128 then [n]
  else if n < 2048 then [192 ||| (n >>> 6), 128 ||| (n &&& 63)]
  else if n < 65536 then
    [224 ||| (n >>> 12), 128 ||| ((n >>> 6) &&& 63), 128 ||| (n &&& 63)]
  else
    [240 ||| (n >>> 18), 128 ||| ((n >>> 12) &&& 63),
     128 ||| ((n >>> 6) &&& 63), 128 ||| (n &&& 63)]

/-- UTF-8 encode a string of code points into bytes. -/
def encode (s : List Char) : List Nat := s.flatMap utf8Bytes

/-- Big-endian 8-byte encoding of the bit length. -/
def be64 (n : Nat) : List Nat :=
  (List.range 8).map (fun i => (n >>> (8 * (7 - i))) % 256)

/-- SHA-1 message padding: `0x80`, zeros to 56 mod 64, 64-bit bit length. -/
def pad (msg : List Nat) : List Nat :=
  let zeros := (120 - ((msg.length + 1) % 64)) % 64
  msg ++ [128] ++ List.replicate zeros 0 ++ be64 (8 * msg.length)

/-- Structural recursion for `blocks`: the fuel only bounds the number of
iterations and is always instantiated with the list length, which suffices
because every iteration consumes a nonempty list. -/
def blocksGo : Nat → List Nat → List (List Nat)
  | 0, _ => []
  | _, [] => []
  | fuel + 1, a :: rest => (a :: rest).take 64 :: blocksGo fuel ((a :: rest).drop 64)

/-- Split the padded message into 64-byte blocks. -/
def blocks (l : List Nat) : List (List Nat) := blocksGo l.length l

/-- The 16 initial 32-bit words of a block, big-endian. -/
def initWords (b : List Nat) : List Nat :=
  (List.range 16).map (fun i =>
    (b.getD (4 * i) 0) <<< 24 ||| (b.getD (4 * i + 1) 0) <<< 16 |||
    (b.getD (4 * i + 2) 0) <<< 8 ||| b.getD (4 * i + 3) 0)

/-- Message-schedule extension to 80 words. -/
def extendWords (w16 : List Nat) : List Nat :=
  (List.range 64).foldl
    (fun w _ =>
      let n := w.length
      w ++ [rotl 1 (((w.getD (n - 3) 0) ^^^ (w.getD (n - 8) 0)) ^^^
        ((w.getD (n - 14) 0) ^^^ (w.getD (n - 16) 0)))])
    w16

/-- One round of the SHA-1 compression loop. -/
def round (st : Nat × Nat × Nat × Nat × Nat) (iw : Nat × Nat) :
    Nat × Nat × Nat × Nat × Nat :=
  let (a, b, c, d, e) := st
  let (i, w) := iw
  let f :=
    if i < 20 then (b &&& c) ||| ((4294967295 ^^^ b) &&& d)
    else if i < 40 then (b ^^^ c) ^^^ d
    else if i < 60 then (b &&& c) ||| (b &&& d) ||| (c &&& d)
    else (b ^^^ c) ^^^ d
  let k :=
    if i < 20 then 1518500249
    else if i < 40 then 1859775393
    else if i < 60 then 2400959708
    else 3395469782
  let temp := mask32 (rotl 5 a + f + e + k + w)
  (temp, a, rotl 30 b, c, d)

/-- Process one 64-byte block. -/
def processBlock (h : Nat × Nat × Nat × Nat × Nat) (b : List Nat) :
    Nat × Nat × Nat × Nat × Nat :=
  let w := extendWords (initWords b)
  let (h0, h1, h2, h3, h4) := h
  let (a, b', c, d, e) := ((List.range 80).zip w).foldl round (h0, h1, h2, h3, h4)
  (mask32 (h0 + a), mask32 (h1 + b'), mask32 (h2 + c), mask32 (h3 + d), mask32 (h4 + e))

/-- Lowercase hex digit. -/
def hexDigit (n : Nat) : Char :=
  if n < 10 then Char.ofNat (48 + n) else Char.ofNat (87 + n)

/-- Rendering of a 32-bit word as 8 hex digits, big-endian. -/
def hex8 (w : Nat) : List Char :=
  (List.range 8).map (fun i => hexDigit ((w >>> (4 * (7 - i))) % 16))

/-- Full SHA-1 digest of a string, as 40 lowercase hex characters. -/
def sha1Hex (s : List Char) : List Char :=
  let (h0, h1, h2, h3, h4) :=
    (blocks (pad (encode s))).foldl processBlock
      (1732584193, 4023233417, 2562383102, 271733878, 3285377520)
  hex8 h0 ++ hex8 h1 ++ hex8 h2 ++ hex8 h3 ++ hex8 h4

/-- The node call chain `createHash`, `update`, `digest` in hex, then `slice(0, 16)`. -/
def sha1Hex16 (s : List Char) : List Char := (sha1Hex s).take 16

end Sha1

/-! ## src/rssFetcher.ts (getRefreshToken.ts companion): article ids -/

/-- Embeds `generateArticleId` from the feed normalizer: hash the link when it is
truthy and its trim is truthy, otherwise hash title concatenated with
source. -/
def generateArticleId (link title source : List Char) : List Char :=
  if link ≠ [] ∧ trimL link ≠ [] then Sha1.sha1Hex16 link
  else Sha1.sha1Hex16 (title ++ source)

/-! ## src/selectArticles.ts -/

namespace SelectArticles

/-- The fixed AI/ML keyword vocabulary of `AI_KEYWORDS`. -/
def AI_KEYWORDS : List (List Char) :=
  ["ai".data, "artificial intelligence".data, "llm".data, "large language model".data,
   "model".data, "gpt".data, "anthropic".data, "openai".data, "deepmind".data,
   "nvidia".data, "transformer".data, "machine learning".data, "ml".data,
   "deep learning".data, "neural network".data, "chatgpt".data, "computer vision".data,
   "nlp".data, "natural language processing".data, "robotics".data, "automation".data,
   "algorithm".data, "data science".data, "tensorflow".data, "pytorch".data,
   "generative ai".data, "attention".data, "reinforcement learning".data, "claude".data,
   "gemini".data, "bard".data, "copilot".data, "midjourney".data, "dall-e".data,
   "stable diffusion".data]

/-- The keyword-based `filterAIArticles` of src/selectArticles.ts:
case-insensitive substring match of any keyword against title or summary. -/
def filterAIArticles (articles : List Article) : List Article :=
  articles.filter (fun article =>
    let title := article.title.map jsToLower
    let summary := article.summary.map jsToLower
    AI_KEYWORDS.any (fun keyword =>
      jsIncludes title keyword || jsIncludes summary keyword))

/-- Embeds `deduplicateArticles`: first deduplicate by exact link, then by
normalized title. -/
def deduplicateArticles (articles : List Article) : List Article :=
  let byLink := uniqueBy articles (fun article => article.link)
  let byTitle := uniqueBy byLink (fun article => normalizeTitleForDedup article.title)
  byTitle

/-- The parsed response of the Pass-B ranking oracle as `selectArticlesWithAI`
sees it after `JSON.parse`: `.error` embeds a failed call or invalid JSON,
`.ok none` a JSON object whose `selectedIds` is missing or not an array, and
`.ok (some ids)` a well-formed response. -/
abbrev RankingResponse := Except Unit (Option (List (List Char)))

/-- Embeds `selectArticlesWithAI`: propagate oracle failure, reject a malformed
response shape, and otherwise truncate the returned ids to `maxCount`.
No membership validation against the candidate list is performed. -/
def selectArticlesWithAI (response : RankingResponse) (maxCount : Nat) :
    Except Unit (List (List Char)) :=
  match response with
  | .error _ => .error ()
  | .ok none => .error ()
  | .ok (some ids) => .ok (ids.take maxCount)

/-- The candidate ids that `selectTopArticles` serializes into the Pass-B
request via `prepareArticlesForAI`. -/
def candidateIds (articles : List Article) : List (List Char) :=
  (deduplicateArticles (filterAIArticles articles)).map (fun a => a.id)

/-- Embeds `selectTopArticles` from src/selectArticles.ts (`maxCount` defaults to 15
there): keyword filter, throw when nothing is AI-related, deduplicate, then
ask the ranking oracle. -/
def selectTopArticles (articles : List Article) (maxCount : Nat)
    (response : RankingResponse) : Except Unit (List (List Char)) :=
  let aiArticles := filterAIArticles articles
  if aiArticles.isEmpty then .error ()
  else
    let _uniqueArticles := deduplicateArticles aiArticles
    selectArticlesWithAI response maxCount

end SelectArticles

/-! ## src/tts.ts and src/audio/tts.ts: chunkText -/

namespace TTS

/-- Embeds `text.lastIndexOf(c, fromIndex)` for a single character: the largest
index at most `fromIndex` holding `c`, or `-1`. -/
def lastIndexOfLe (text : List Char) (c : Char) (fromIndex : Nat) : Int :=
  ((List.range (fromIndex + 1)).filter (fun i => text.getD i ' ' = c ∧ i < text.length)).foldl
    (fun acc i => max acc (i : Int)) (-1)

/-- The cut index one loop iteration of `chunkText` chooses from
`currentIndex`: the greedy `currentIndex + maxLength`, moved back to just
after the last sentence-terminal character when that character lies within
the search window and strictly beyond `currentIndex + maxLength * 0.5`.
The comparison `lastBreak > currentIndex + maxLength * 0.5` is integer-exact
and is embedded as `2 * lastBreak > 2 * currentIndex + maxLength`. -/
def nextEnd (text : List Char) (maxLength currentIndex : Nat) : Nat :=
  let endIndex := currentIndex + maxLength
  if endIndex < text.length then
    let lastBreak := max (lastIndexOfLe text '.' endIndex)
      (max (lastIndexOfLe text '?' endIndex) (lastIndexOfLe text '!' endIndex))
    if 2 * lastBreak > 2 * (currentIndex : Int) + (maxLength : Int) then
      (lastBreak + 1).toNat
    else endIndex
  else endIndex

/-- Embeds `text.slice(currentIndex, endIndex)`. -/
def sliceL (text : List Char) (a b : Nat) : List Char :=
  (text.drop a).take (b - a)

/-- The `while (currentIndex < text.length)` loop of `chunkText`, with
explicit fuel; `chunkTextL` instantiates the fuel with the text length,
which always suffices because the cursor strictly increases (see the
termination theorem below). -/
def chunkTextGo : Nat → List Char → Nat → Nat → List (List Char)
  | 0, _, _, _ => []
  | fuel + 1, text, maxLength, currentIndex =>
    if currentIndex < text.length then
      let endIndex := nextEnd text maxLength currentIndex
      trimL (sliceL text currentIndex endIndex) ::
        chunkTextGo fuel text maxLength endIndex
    else []

/-- Embeds `chunkText` on character lists, at the default `maxLength = 1900`:
a short text is returned untouched as a single chunk, a long text is cut by
the loop. -/
def chunkTextL (text : List Char) : List (List Char) :=
  if text.length ≤ 1900 then [text]
  else chunkTextGo text.length text 1900 0

/-- Embeds `chunkText` on strings. -/
def chunkText (text : String) : List String :=
  (chunkTextL text.data).map String.mk

end TTS

/-! ## src/selectArticles.ts variant of testPodcast.ts: batched Pass A -/

namespace TestPodcast

/-- Global single-character replacement, `s.replace(/x/g, y)` for a
one-character pattern. -/
def replCharL (a b : Char) (l : List Char) : List Char :=
  l.map (fun c => if c = a then b else c)

/-- The compact per-article record sent to the Pass-A relevance oracle. -/
structure FilterItem where
  id : List Char
  title : List Char
  summary : List Char
deriving DecidableEq, Repr

/-- The mapping of an article to its compact Pass-A form: newlines and
carriage returns replaced by spaces, trimmed, summary truncated to 200. -/
def toFilterItem (a : Article) : FilterItem :=
  { id := a.id
    title := trimL (replCharL '\r' ' ' (replCharL '\n' ' ' a.title))
    summary := truncateText (trimL (replCharL '\r' ' ' (replCharL '\n' ' ' a.summary))) 200 }

/-- Structural recursion for `chunks100`; the fuel is always instantiated
with the list length, which suffices because every iteration consumes a
nonempty list. -/
def chunks100Go : Nat → List α → List (List α)
  | 0, _ => []
  | _, [] => []
  | fuel + 1, a :: rest => (a :: rest).take 100 :: chunks100Go fuel ((a :: rest).drop 100)

/-- The batch partition of the Pass-A loop
`for (let i = 0; i < n; i += CHUNK_SIZE)` with `CHUNK_SIZE = 100`. -/
def chunks100 (l : List α) : List (List α) := chunks100Go l.length l

/-- The parsed response of one `processArticleChunk` oracle call: `.error`
embeds a failed call, invalid JSON or a missing/non-array `aiRelatedIds`
field. -/
abbrev BatchResponse := Except Unit (List (List Char))

/-- The accumulation loop over batches: the k-th batch issues the k-th
oracle call; a failing batch contributes no ids and processing continues
(`catch` + `continue with other chunks` in the source). -/
def collectIds (respond : Nat → BatchResponse) : List (List FilterItem) → Nat → List (List Char)
  | [], _ => []
  | _ :: cs, k =>
    (match respond k with
     | .ok ids => ids
     | .error _ => []) ++ collectIds respond cs (k + 1)

/-- Embeds `filterAIArticles` from the testPodcast.ts companion module.
`hasKey` is the availability of the Pass-A oracle (`OPENAI_API_KEY`);
`respond` gives the parsed response of the k-th oracle call. The result
carries the list of batches actually sent to the oracle (one oracle call
per list entry, issued in list order) next to the filtered articles. -/
def filterAIArticles (hasKey : Bool) (articles : List Article)
    (respond : Nat → BatchResponse) :
    Except Unit (List (List FilterItem) × List Article) :=
  if articles.isEmpty then .ok ([], [])
  else if !hasKey then .ok ([], SelectArticles.filterAIArticles articles)
  else
    let items := articles.map toFilterItem
    if 100 < items.length then
      let cs := chunks100 items
      let ids := collectIds respond cs 0
      .ok (cs, articles.filter (fun a => a.id ∈ ids))
    else
      match respond 0 with
      | .error _ => .error ()
      | .ok ids => .ok ([items], articles.filter (fun a => a.id ∈ ids))

end TestPodcast

/-! ## Feed normalizer (rssFetcher companion of getRefreshToken.ts) -/

namespace RSS

/-- A raw feed entry as `rss-parser` hands it over; absent fields are
`none`. -/
structure RssItem where
  title : Option (List Char)
  link : Option (List Char)
  pubDate : Option (List Char)
  isoDate : Option (List Char)
  contentSnippet : Option (List Char)
  content : Option (List Char)
  description : Option (List Char)
deriving DecidableEq, Repr

/-- JavaScript `a || d` for an optional string: `undefined` and the empty
string are falsy. -/
def jsOr (o : Option (List Char)) (d : List Char) : List Char :=
  match o with
  | none => d
  | some s => if s.isEmpty then d else s

/-- Embeds `s.replace(pat, sub)` with a string pattern: replace the first
occurrence only. -/
def replFirstL (pat sub : List Char) : List Char → List Char
  | [] => []
  | c :: rest =>
    if !pat.isEmpty && pat.isPrefixOf (c :: rest) then sub ++ (c :: rest).drop pat.length
    else c :: replFirstL pat sub rest

/-- Structural recursion for `replAllL`; fuel is the list length, which
suffices because every step consumes at least one character. -/
def replAllGo (pat sub : List Char) : Nat → List Char → List Char
  | 0, l => l
  | fuel + 1, l =>
    match l with
    | [] => []
    | c :: rest =>
      if !pat.isEmpty && pat.isPrefixOf (c :: rest) then
        sub ++ replAllGo pat sub fuel ((c :: rest).drop pat.length)
      else c :: replAllGo pat sub fuel rest

/-- Embeds `s.replace(/pat/g, sub)` for a literal pattern: replace every
non-overlapping occurrence, left to right. -/
def replAllL (pat sub l : List Char) : List Char := replAllGo pat sub l.length l

/-- The suffix just after the first occurrence of `pat`, or `none`. -/
def afterFirst (pat : List Char) : List Char → Option (List Char)
  | [] => none
  | c :: rest =>
    if pat.isPrefixOf (c :: rest) then some ((c :: rest).drop pat.length)
    else afterFirst pat rest

/-- Modelled from the spec: the host of a URL as `new URL(url).hostname`
returns it (the `URL` builtin is not part of this repository) — the segment
after `://` up to the first `/`, `:`, `?` or `#`; a URL without `://` makes
the `URL` constructor throw. -/
def hostname (url : List Char) : Option (List Char) :=
  match afterFirst "://".data url with
  | none => none
  | some rest => some (rest.takeWhile (fun c => !(c = '/' || c = ':' || c = '?' || c = '#')))

/-- Embeds `extractSourceName`: clean the feed host by deleting the first
occurrence of each common hostname pattern, in source order; a URL the
`URL` constructor rejects yields `"unknown-source"`. -/
def extractSourceName (feedUrl : List Char) : List Char :=
  match hostname feedUrl with
  | none => "unknown-source".data
  | some h =>
    replFirstL "research.".data []
      (replFirstL "blog.".data []
        (replFirstL "news.".data []
          (replFirstL ".co.uk".data []
            (replFirstL ".edu".data []
              (replFirstL ".org".data []
                (replFirstL ".com".data []
                  (replFirstL "www.".data [] h)))))))

/-- Modelled from the spec: tag stripping as the external `striptags`
library performs it on the inputs at hand — characters between `<` and the
matching `>` are deleted. -/
def stripTagsGo : Bool → List Char → List Char
  | _, [] => []
  | false, c :: rest =>
    if c = '<' then stripTagsGo true rest else c :: stripTagsGo false rest
  | true, c :: rest =>
    if c = '>' then stripTagsGo false rest else stripTagsGo true rest

/-- Modelled from the spec: `striptags` entry point. -/
def stripTags (l : List Char) : List Char := stripTagsGo false l

/-- Embeds `cleanHtmlContent`: strip tags, decode the listed HTML entities in
source order, collapse whitespace, trim, and cap at 500 characters with an
ellipsis marker. -/
def cleanHtmlContent (htmlContent : List Char) : List Char :=
  if htmlContent.isEmpty then []
  else
    let t := stripTags htmlContent
    let t := replAllL "&amp;".data "&".data t
    let t := replAllL "&lt;".data "<".data t
    let t := replAllL "&gt;".data ">".data t
    let t := replAllL "&quot;".data "\"".data t
    let t := replAllL "&#39;".data [Char.ofNat 39] t
    let t := replAllL "&nbsp;".data " ".data t
    let t := replAllL "&hellip;".data "...".data t
    let t := replAllL "&mdash;".data "—".data t
    let t := replAllL "&ndash;".data "–".data t
    let t := trimL (collapseSpacesL t)
    if 500 < t.length then t.take 500 ++ "...".data else t

/-- The hard-coded feed URL list `RSS_FEEDS`. -/
def RSS_FEEDS : List (List Char) :=
  ["https://openai.com/blog/rss.xml".data,
   "https://techcrunch.com/category/artificial-intelligence/feed/".data,
   "https://www.marktechpost.com/feed/".data,
   "https://www.kdnuggets.com/feed".data,
   "https://www.ft.com/artificial-intelligence?format=rss".data,
   "https://news.mit.edu/topic/mitartificial-intelligence2-rss.xml".data,
   "https://thegradient.pub/rss/".data,
   "https://www.analyticsvidhya.com/blog/category/artificial-intelligence/feed/".data,
   "https://www.artificialintelligence-news.com/feed/".data,
   "https://rss.nytimes.com/services/xml/rss/nyt/Technology.xml".data,
   "https://research.google/blog/rss".data,
   "https://dailyai.com/feed".data]

/-- Embeds `fetchFeed`: a feed whose fetch/parse fails contributes no articles
(the `catch` returns `[]`); a parsed feed is normalized entry by entry.
`parseOutcome` is the result of the external `parser.parseURL` call and
`nowISO` the value of `new Date().toISOString()` at normalization time. -/
def fetchFeed (feedUrl : List Char) (parseOutcome : Except Unit (List RssItem))
    (nowISO : List Char) : List Article :=
  match parseOutcome with
  | .error _ => []
  | .ok items =>
    let sourceName := extractSourceName feedUrl
    items.map (fun item =>
      let title := jsOr item.title "Untitled".data
      let link := jsOr item.link []
      { id := generateArticleId link title sourceName
        source := sourceName
        title := title
        link := link
        pubDate := some (jsOr item.pubDate (jsOr item.isoDate nowISO))
        summary := cleanHtmlContent
          (jsOr item.contentSnippet (jsOr item.content (jsOr item.description []))) })

/-- Embeds `new Date(a.pubDate || 0).getTime()` of an article: a missing or empty
date falls back to epoch 0; `getTime` is the external `Date` parser. -/
def dateKey (getTime : List Char → Int) (a : Article) : Int :=
  match a.pubDate with
  | none => 0
  | some s => if s.isEmpty then 0 else getTime s

/-- Embeds `fetchAllFeeds`: fan out over `RSS_FEEDS` (`parse` gives each feed its
fetch outcome), flatten, and sort newest-first with the comparator
`(a, b) => getTime(b) - getTime(a)` (a stable sort, embedded by
`mergeSort`). -/
def fetchAllFeeds (parse : List Char → Except Unit (List RssItem))
    (nowISO : List Char) (getTime : List Char → Int) : List Article :=
  let allArticles := (RSS_FEEDS.map (fun u => fetchFeed u (parse u) nowISO)).flatten
  allArticles.mergeSort (fun a b => dateKey getTime b ≤ dateKey getTime a)

end RSS

/-! ## src/audio/tts.ts: getMP3Duration -/

namespace Audio

/-- Numeric value of a digit run. -/
def digitsVal (l : List Char) : Nat :=
  l.foldl (fun acc c => 10 * acc + (c.toNat - 48)) 0

/-- Embeds `parseFloat` on the finite decimal literals `ffprobe` can emit:
optional whitespace, optional sign, digits with optional fraction, optional
exponent; everything else (including the non-finite literals, which cannot
occur here) parses to NaN, embedded as `none`. A trailing garbage suffix is
ignored, as `parseFloat` ignores it. -/
def jsParseFloat (s : List Char) : Option ℚ :=
  let l := s.dropWhile jsIsSpace
  let (sign, l) : ℚ × List Char :=
    match l with
    | '-' :: r => (-1, r)
    | '+' :: r => (1, r)
    | _ => (1, l)
  let ipart := l.takeWhile Char.isDigit
  let rest0 := l.dropWhile Char.isDigit
  let (val?, rest) : Option ℚ × List Char :=
    match rest0 with
    | '.' :: r2 =>
      let fpart := r2.takeWhile Char.isDigit
      if ipart.isEmpty && fpart.isEmpty then (none, rest0)
      else (some ((digitsVal ipart : ℚ) + (digitsVal fpart : ℚ) / (10 : ℚ) ^ fpart.length),
            r2.dropWhile Char.isDigit)
    | _ =>
      if ipart.isEmpty then (none, rest0) else (some (digitsVal ipart : ℚ), rest0)
  match val? with
  | none => none
  | some v =>
    let v :=
      match rest with
      | e :: r =>
        if e = 'e' || e = 'E' then
          let (esign, r2) : Int × List Char :=
            match r with
            | '-' :: rr => (-1, rr)
            | '+' :: rr => (1, rr)
            | _ => (1, r)
          let ds := r2.takeWhile Char.isDigit
          if ds.isEmpty then v else v * (10 : ℚ) ^ (esign * (digitsVal ds : Int))
        else v
      | [] => v
    some (sign * v)

/-- Embeds `Math.round`: round half up. -/
def jsRound (q : ℚ) : Int := ⌊q + 1 / 2⌋

/-- The outcome of the external `ffprobe` spawn: an `error` event, or a
`close` event with an exit code and the collected stdout. -/
inductive ProbeOutcome
  | spawnErr
  | closed (code : Int) (stdout : List Char)
deriving DecidableEq, Repr

/-- The size heuristic of `getMP3Duration`:
`Math.round((bufferLen / 1024 / 320) * 60)` (~320 KB per minute). -/
def sizeHeuristic (bufferLen : Nat) : Int :=
  jsRound ((bufferLen : ℚ) / 1024 / 320 * 60)

/-- Embeds `getMP3Duration` from src/audio/tts.ts on an audio buffer of
`bufferLen` bytes. `writeOk` is whether writing the probe temp file
succeeded; an `.error` result embeds a rejected promise. The probe path
resolves the parsed `parseFloat` value as is; every fallback path resolves
the size heuristic. -/
def getMP3Duration (bufferLen : Nat) (writeOk : Bool) (probe : ProbeOutcome) :
    Except (List Char) ℚ :=
  if !writeOk then .ok (sizeHeuristic bufferLen : ℚ)
  else
    match probe with
    | .spawnErr => .ok (sizeHeuristic bufferLen : ℚ)
    | .closed code out =>
      if code = 0 then
        match jsParseFloat (trimL out) with
        | some d => .ok d
        | none => .error "Could not parse duration from ffprobe output".data
      else .ok (sizeHeuristic bufferLen : ℚ)

end Audio

/-! ## Concrete inputs used by the closed witness theorems -/

/-- A minimal AI-related article (its title matches the keyword `"ai"`). -/
def sampleArticle : Article :=
  { id := "id1".data, source := "src".data, title := "ai".data,
    link := "http://a".data, pubDate := none, summary := [] }

/-- A second article with the same link as `sampleArticle` but another
title, to exercise link deduplication. -/
def sampleArticleDupLink : Article :=
  { id := "id2".data, source := "src".data, title := "ml news".data,
    link := "http://a".data, pubDate := none, summary := [] }

/-- A Pass-A oracle behavior whose first call fails and whose later calls
return no ids. -/
def sampleRespond : Nat → TestPodcast.BatchResponse :=
  fun k => if k = 0 then .error () else .ok []

/-- One raw feed entry with only a title. -/
def sampleItem : RSS.RssItem :=
  { title := some "T".data, link := none, pubDate := none, isoDate := none,
    contentSnippet := none, content := none, description := none }

/-- A fetch outcome where only the first hard-coded feed succeeds and every
other feed errors out. -/
def sampleParse : List Char → Except Unit (List RSS.RssItem) :=
  fun u => if u = "https://openai.com/blog/rss.xml".data then .ok [sampleItem] else .error ()

/-! ## Helper lemmas -/

theorem dropWhile_length_le (p : Char → Bool) (l : List Char) :
    (l.dropWhile p).length ≤ l.length :=
  (List.IsSuffix.sublist (List.dropWhile_suffix p)).length_le

theorem trimL_length_le (l : List Char) : (trimL l).length ≤ l.length := by
  unfold trimL
  calc ((l.dropWhile jsIsSpace).reverse.dropWhile jsIsSpace).reverse.length
      = ((l.dropWhile jsIsSpace).reverse.dropWhile jsIsSpace).length := List.length_reverse _
    _ ≤ (l.dropWhile jsIsSpace).reverse.length := dropWhile_length_le _ _
    _ = (l.dropWhile jsIsSpace).length := List.length_reverse _
    _ ≤ l.length := dropWhile_length_le _ _

theorem foldl_max_le (B : Int) : ∀ (l : List Nat) (a : Int), a ≤ B →
    (∀ i ∈ l, (i : Int) ≤ B) → l.foldl (fun acc i => max acc (i : Int)) a ≤ B := by
  intro l
  induction l with
  | nil =>
    intro a ha _
    exact ha
  | cons x xs ih =>
    intro a ha hmem
    exact ih _ (max_le ha (hmem x (by simp))) (fun i hi => hmem i (by simp [hi]))

theorem lastIndexOfLe_le (text : List Char) (c : Char) (fromIndex : Nat) :
    TTS.lastIndexOfLe text c fromIndex ≤ (fromIndex : Int) := by
  unfold TTS.lastIndexOfLe
  apply foldl_max_le
  · omega
  · intro i hi
    have : i ∈ List.range (fromIndex + 1) := List.mem_of_mem_filter hi
    have := List.mem_range.mp this
    omega

theorem nextEnd_le (text : List Char) (m cur : Nat) :
    TTS.nextEnd text m cur ≤ cur + m + 1 := by
  unfold TTS.nextEnd
  dsimp only
  split_ifs with h1 h2
  · have hb : max (TTS.lastIndexOfLe text '.' (cur + m))
        (max (TTS.lastIndexOfLe text '?' (cur + m))
          (TTS.lastIndexOfLe text '!' (cur + m))) ≤ ((cur + m : Nat) : Int) :=
      max_le (lastIndexOfLe_le _ _ _)
        (max_le (lastIndexOfLe_le _ _ _) (lastIndexOfLe_le _ _ _))
    omega
  · omega
  · omega

theorem nextEnd_gt (text : List Char) (m cur : Nat) (hm : 0 < m)
    (h : cur < text.length) : cur < TTS.nextEnd text m cur := by
  unfold TTS.nextEnd
  dsimp only
  split_ifs with h1 h2
  · omega
  · omega
  · omega

theorem chunkTextGo_stop (text : List Char) (m cur : Nat) (h : text.length ≤ cur) :
    ∀ fuel, TTS.chunkTextGo fuel text m cur = [] := by
  intro fuel
  cases fuel with
  | zero => rfl
  | succ f => simp [TTS.chunkTextGo, Nat.not_lt.mpr h]

theorem chunkTextGo_congr (text : List Char) :
    ∀ f1 f2 cur : Nat, text.length - cur ≤ f1 → text.length - cur ≤ f2 →
      TTS.chunkTextGo f1 text 1900 cur = TTS.chunkTextGo f2 text 1900 cur := by
  intro f1
  induction f1 with
  | zero =>
    intro f2 cur h1 _
    rw [chunkTextGo_stop text 1900 cur (by omega), chunkTextGo_stop text 1900 cur (by omega)]
  | succ f1 ih =>
    intro f2 cur h1 h2
    by_cases hc : cur < text.length
    · cases f2 with
      | zero => omega
      | succ f2 =>
        simp only [TTS.chunkTextGo, if_pos hc]
        have hgt := nextEnd_gt text 1900 cur (by omega) hc
        rw [ih f2 (TTS.nextEnd text 1900 cur) (by omega) (by omega)]
    · rw [chunkTextGo_stop text 1900 cur (by omega), chunkTextGo_stop text 1900 cur (by omega)]

theorem chunkTextGo_spec (text : List Char) :
    ∀ fuel cur : Nat, text.length - cur ≤ fuel →
      ∃ segs : List (List Char), segs.flatten = text.drop cur ∧
        TTS.chunkTextGo fuel text 1900 cur = segs.map trimL ∧
        ∀ chunk ∈ TTS.chunkTextGo fuel text 1900 cur, chunk.length ≤ 1901 := by
  intro fuel
  induction fuel with
  | zero =>
    intro cur h
    refine ⟨[], by simp [List.drop_eq_nil_of_le (by omega : text.length ≤ cur)], rfl, ?_⟩
    intro chunk hchunk
    simp [TTS.chunkTextGo] at hchunk
  | succ f ih =>
    intro cur h
    by_cases hc : cur < text.length
    · have hgt := nextEnd_gt text 1900 cur (by omega) hc
      have hle := nextEnd_le text 1900 cur
      obtain ⟨segs, hflat, hgo, hbound⟩ := ih (TTS.nextEnd text 1900 cur) (by omega)
      refine ⟨TTS.sliceL text cur (TTS.nextEnd text 1900 cur) :: segs, ?_, ?_, ?_⟩
      · simp only [List.flatten_cons, hflat, TTS.sliceL]
        rw [show text.drop (TTS.nextEnd text 1900 cur) =
              (text.drop cur).drop (TTS.nextEnd text 1900 cur - cur) by
            rw [List.drop_drop]; congr 1; omega]
        exact List.take_append_drop _ _
      · simp only [TTS.chunkTextGo, if_pos hc, List.map_cons, hgo]
      · intro chunk hchunk
        simp only [TTS.chunkTextGo, if_pos hc, List.mem_cons] at hchunk
        rcases hchunk with rfl | hmem
        · calc (trimL (TTS.sliceL text cur (TTS.nextEnd text 1900 cur))).length
              ≤ (TTS.sliceL text cur (TTS.nextEnd text 1900 cur)).length := trimL_length_le _
            _ ≤ TTS.nextEnd text 1900 cur - cur := by
                simp only [TTS.sliceL]
                exact (List.length_take_le _ _)
            _ ≤ 1901 := by omega
        · exact hbound chunk hmem
    · refine ⟨[], by simp [List.drop_eq_nil_of_le (by omega : text.length ≤ cur)], ?_, ?_⟩
      · rw [chunkTextGo_stop text 1900 cur (by omega)]
        rfl
      · intro chunk hchunk
        rw [chunkTextGo_stop text 1900 cur (by omega)] at hchunk
        simp at hchunk

theorem uniqueByAux_sublist (key : α → List Char) :
    ∀ (xs : List α) (seen : List (List Char)),
      List.Sublist (uniqueByAux key xs seen) xs := by
  intro xs
  induction xs with
  | nil => intro seen; simp [uniqueByAux]
  | cons x rest ih =>
    intro seen
    unfold uniqueByAux
    split_ifs with hmem
    · exact (ih seen).cons x
    · exact (ih (key x :: seen)).cons₂ x

theorem uniqueByAux_first (key : α → List Char) :
    ∀ (xs : List α) (seen : List (List Char)) (x : α),
      x ∈ uniqueByAux key xs seen →
        key x ∉ seen ∧
        (xs.filter (fun y => decide (key y = key x))).head? = some x := by
  intro xs
  induction xs with
  | nil => intro seen x hx; simp [uniqueByAux] at hx
  | cons a rest ih =>
    intro seen x hx
    unfold uniqueByAux at hx
    split_ifs at hx with hmem
    · obtain ⟨hnotseen, hhead⟩ := ih seen x hx
      have hne : key a ≠ key x := fun heq => hnotseen (heq ▸ hmem)
      refine ⟨hnotseen, ?_⟩
      rw [List.filter_cons, if_neg (by simpa using hne)]
      exact hhead
    · rcases List.mem_cons.mp hx with rfl | hx'
      · refine ⟨hmem, ?_⟩
        rw [List.filter_cons, if_pos (by simp)]
        rfl
      · obtain ⟨hnotseen, hhead⟩ := ih (key a :: seen) x hx'
        have hne : key a ≠ key x := fun hkey => hnotseen (by simp [hkey])
        refine ⟨fun hs => hnotseen (by simp [hs]), ?_⟩
        rw [List.filter_cons, if_neg (by simpa using hne)]
        exact hhead

theorem uniqueByAux_pairwise (key : α → List Char) :
    ∀ (xs : List α) (seen : List (List Char)),
      (uniqueByAux key xs seen).Pairwise (fun a b => key a ≠ key b) := by
  intro xs
  induction xs with
  | nil => intro seen; simp [uniqueByAux]
  | cons a rest ih =>
    intro seen
    unfold uniqueByAux
    split_ifs with hmem
    · exact ih seen
    · refine List.Pairwise.cons ?_ (ih (key a :: seen))
      intro y hy heq
      exact (uniqueByAux_first key rest (key a :: seen) y hy).1 (by simp [heq])

theorem uniqueByAux_eq_self (key : α → List Char) :
    ∀ (xs : List α) (seen : List (List Char)),
      xs.Pairwise (fun a b => key a ≠ key b) →
      (∀ x ∈ xs, key x ∉ seen) →
      uniqueByAux key xs seen = xs := by
  intro xs
  induction xs with
  | nil => intro seen _ _; rfl
  | cons a rest ih =>
    intro seen hpw hdisj
    unfold uniqueByAux
    rw [if_neg (hdisj a (by simp))]
    congr 1
    refine ih (key a :: seen) (List.Pairwise.of_cons hpw) ?_
    intro x hx
    simp only [List.mem_cons, not_or]
    exact ⟨fun heq => (List.pairwise_cons.mp hpw).1 x hx heq.symm, hdisj x (by simp [hx])⟩

theorem uniqueBy_pairwise (xs : List α) (key : α → List Char) :
    (uniqueBy xs key).Pairwise (fun a b => key a ≠ key b) :=
  uniqueByAux_pairwise key xs []

theorem uniqueBy_eq_self (xs : List α) (key : α → List Char)
    (h : xs.Pairwise (fun a b => key a ≠ key b)) : uniqueBy xs key = xs :=
  uniqueByAux_eq_self key xs [] h (by simp)

theorem uniqueBy_sublist (xs : List α) (key : α → List Char) :
    List.Sublist (uniqueBy xs key) xs :=
  uniqueByAux_sublist key xs []

theorem deduplicateArticles_sublist (xs : List Article) :
    List.Sublist (SelectArticles.deduplicateArticles xs) xs :=
  (uniqueBy_sublist _ _).trans (uniqueBy_sublist _ _)

theorem deduplicateArticles_idem (xs : List Article) :
    SelectArticles.deduplicateArticles (SelectArticles.deduplicateArticles xs) =
      SelectArticles.deduplicateArticles xs := by
  unfold SelectArticles.deduplicateArticles
  have hlink : (uniqueBy
      (uniqueBy (uniqueBy xs (fun a => a.link)) (fun a => normalizeTitleForDedup a.title))
      (fun a => a.link)) =
      uniqueBy (uniqueBy xs (fun a => a.link)) (fun a => normalizeTitleForDedup a.title) := by
    refine uniqueBy_eq_self _ _ ?_
    exact List.Pairwise.sublist (uniqueBy_sublist _ _) (uniqueBy_pairwise xs (fun a => a.link))
  rw [hlink]
  refine uniqueBy_eq_self _ _ ?_
  exact uniqueBy_pairwise _ _

theorem chunks100Go_spec {α : Type} :
    ∀ (fuel : Nat) (l : List α), l.length ≤ fuel →
      (TestPodcast.chunks100Go fuel l).flatten = l ∧
      (TestPodcast.chunks100Go fuel l).length = (l.length + 99) / 100 ∧
      ∀ c ∈ TestPodcast.chunks100Go fuel l, c.length ≤ 100 ∧ c ≠ [] := by
  intro fuel
  induction fuel with
  | zero =>
    intro l hl
    have : l = [] := List.eq_nil_of_length_eq_zero (by omega)
    subst this
    exact ⟨rfl, by simp [TestPodcast.chunks100Go], by simp [TestPodcast.chunks100Go]⟩
  | succ f ih =>
    intro l hl
    cases l with
    | nil => exact ⟨rfl, by simp [TestPodcast.chunks100Go], by simp [TestPodcast.chunks100Go]⟩
    | cons a rest =>
      have hlen : ((a :: rest).drop 100).length ≤ f := by
        simp only [List.length_drop, List.length_cons]
        simp only [List.length_cons] at hl
        omega
      obtain ⟨ihflat, ihlen, ihmem⟩ := ih ((a :: rest).drop 100) hlen
      refine ⟨?_, ?_, ?_⟩
      · simp only [TestPodcast.chunks100Go, List.flatten_cons, ihflat]
        exact List.take_append_drop _ _
      · simp only [TestPodcast.chunks100Go, List.length_cons, ihlen, List.length_drop]
        simp only [List.length_cons] at hl ⊢
        omega
      · intro c hc
        simp only [TestPodcast.chunks100Go, List.mem_cons] at hc
        rcases hc with rfl | hc
        · constructor
          · exact List.length_take_le _ _
          · have : (0 : Nat) < ((a :: rest).take 100).length := by
              simp [List.length_take]
            exact List.ne_nil_of_length_pos this
        · exact ihmem c hc

theorem collectIds_eq (respond : Nat → TestPodcast.BatchResponse) :
    ∀ (cs : List (List TestPodcast.FilterItem)) (k : Nat),
      TestPodcast.collectIds respond cs k =
        ((List.range cs.length).map (fun j =>
          match respond (k + j) with
          | .ok ids => ids
          | .error _ => [])).flatten := by
  intro cs
  induction cs with
  | nil => intro k; rfl
  | cons c rest ih =>
    intro k
    simp only [TestPodcast.collectIds, List.length_cons, List.range_succ_eq_map,
      List.map_cons, List.flatten_cons, List.map_map, Nat.add_zero]
    congr 1
    rw [ih (k + 1)]
    congr 1
    apply List.map_congr_left
    intro j _
    simp only [Function.comp_apply]
    congr 2
    omega

/-! ## Claim theorems -/

/-- C2: the claim that `normalizeTitleForDedup` maps `"GPT-5 Launches!"` and
`"gpt 5 launches"` to the same key is false: the regexp deletes the hyphen
without inserting a space, so the first title normalizes to
`"gpt5 launches"` while the second stays `"gpt 5 launches"`. -/
theorem C2_counterexample :
    normalizeTitleForDedup "GPT-5 Launches!".data ≠
      normalizeTitleForDedup "gpt 5 launches".data := by
  decide

/-- C2 (amended): `normalizeTitleForDedup` maps `"GPT-5 Launches!"` and
`"gpt5 launches"` to the same key `"gpt5 launches"` — punctuation is
deleted in place (not replaced by whitespace), case is folded and
whitespace is collapsed. -/
theorem C2_dedup_key :
    normalizeTitleForDedup "GPT-5 Launches!".data =
      normalizeTitleForDedup "gpt5 launches".data ∧
    normalizeTitleForDedup "GPT-5 Launches!".data = "gpt5 launches".data := by
  decide

/-- C3: the claim that a short input comes back trimmed is false: the
length-at-most-1900 fast path of `chunkText` returns the input string
unchanged, without trimming. -/
theorem C3_counterexample :
    TTS.chunkTextL " a ".data = [" a ".data] ∧ trimL " a ".data ≠ " a ".data := by
  decide

/-- C3 (amended): for every input of length at most 1900, `chunkText`
returns exactly one chunk, and that chunk is the input string itself,
untrimmed (only the multi-chunk path trims). -/
theorem C3_single_chunk (text : List Char) (h : text.length ≤ 1900) :
    TTS.chunkTextL text = [text] := by
  simp [TTS.chunkTextL, h]

/-- C3 witness: the single-chunk path at a concrete short input. -/
theorem C3_witness :
    " hi ".data.length ≤ 1900 ∧ TTS.chunkTextL " hi ".data = [" hi ".data] :=
  ⟨by decide, C3_single_chunk " hi ".data (by decide)⟩

/-- C4: for every input longer than 1900 characters, the chunks of
`chunkText` are the trims of a partition of the input (so their
concatenation reconstructs the input up to the whitespace removed at chunk
boundaries), and every chunk has at most 1901 characters — the greedy
cutpoint plus at most one for a sentence terminator sitting exactly on it,
well within the 950-character boundary-search tolerance. Determinism is
inherent: the embedding is a pure function of the input. -/
theorem C4_chunk_reconstruction (text : List Char) (h : 1900 < text.length) :
    ∃ segs : List (List Char), segs.flatten = text ∧
      TTS.chunkTextL text = segs.map trimL ∧
      ∀ chunk ∈ TTS.chunkTextL text, chunk.length ≤ 1901 := by
  have hspec := chunkTextGo_spec text text.length 0 (by omega)
  simp only [List.drop_zero] at hspec
  have hL : TTS.chunkTextL text = TTS.chunkTextGo text.length text 1900 0 := by
    simp [TTS.chunkTextL, Nat.not_le.mpr h]
  rw [hL]
  exact hspec

/-- C4 witness: the reconstruction property at a concrete input of length
1901. -/
theorem C4_witness :
    1900 < (List.replicate 1901 'a').length ∧
    ∃ segs : List (List Char), segs.flatten = List.replicate 1901 'a' ∧
      TTS.chunkTextL (List.replicate 1901 'a') = segs.map trimL ∧
      ∀ chunk ∈ TTS.chunkTextL (List.replicate 1901 'a'), chunk.length ≤ 1901 :=
  ⟨by rw [List.length_replicate]; omega,
   C4_chunk_reconstruction (List.replicate 1901 'a') (by rw [List.length_replicate]; omega)⟩

/-- C10: `chunkText` terminates on every input: whenever the cursor is
inside the text, the chosen cut index strictly exceeds it (the backward
cutpoint is accepted only strictly beyond `currentIndex` plus half of
`maxLength`), hence the fuel-indexed embedding of the loop is stable under
any sufficient fuel — the loop is a total function of the input with no
precondition on the input string. -/
theorem C10_termination (text : List Char) (cur f1 f2 : Nat) :
    (cur < text.length → cur < TTS.nextEnd text 1900 cur) ∧
    (text.length - cur ≤ f1 → text.length - cur ≤ f2 →
      TTS.chunkTextGo f1 text 1900 cur = TTS.chunkTextGo f2 text 1900 cur) :=
  ⟨fun h => nextEnd_gt text 1900 cur (by omega) h,
   fun h1 h2 => chunkTextGo_congr text f1 f2 cur h1 h2⟩

/-- C10 witness: cursor progress and fuel stability at a concrete input. -/
theorem C10_witness :
    0 < TTS.nextEnd "abc".data 1900 0 ∧
    TTS.chunkTextGo 3 "abc".data 1900 0 = TTS.chunkTextGo 7 "abc".data 1900 0 :=
  ⟨(C10_termination "abc".data 0 3 7).1 (by decide),
   (C10_termination "abc".data 0 3 7).2 (by decide) (by decide)⟩

set_option maxRecDepth 100000 in
/-- C5: the claim that every article with a non-empty link gets
`SHA-1(link)` as id is false at a whitespace-only link: `" "` is non-empty,
yet `generateArticleId` falls back to hashing title and source (the code
also requires the trimmed link to be non-empty), so the id differs from the
first 16 hex characters of `SHA-1(" ")` and coincides with those of
`SHA-1(title ++ source)`. -/
theorem C5_counterexample :
    " ".data ≠ [] ∧
    generateArticleId " ".data "a".data "b".data ≠ Sha1.sha1Hex16 " ".data ∧
    generateArticleId " ".data "a".data "b".data =
      Sha1.sha1Hex16 ("a".data ++ "b".data) := by
  refine ⟨by decide, by decide, by decide⟩

/-- C5 (amended): for every article whose link is non-empty and not
whitespace-only, the id is the first 16 hex characters of `SHA-1(link)` and
depends only on the link; for every article whose link is empty or
whitespace-only, the id is the first 16 hex characters of
`SHA-1(title ++ source)` (hence depends only on that pair). -/
theorem C5_id_from_hash (link title source title2 source2 : List Char) :
    (link ≠ [] ∧ trimL link ≠ [] →
      generateArticleId link title source = Sha1.sha1Hex16 link ∧
      generateArticleId link title source = generateArticleId link title2 source2) ∧
    (link = [] ∨ trimL link = [] →
      generateArticleId link title source = Sha1.sha1Hex16 (title ++ source)) := by
  constructor
  · intro h
    unfold generateArticleId
    rw [if_pos h, if_pos h]
    exact ⟨rfl, rfl⟩
  · intro h
    unfold generateArticleId
    rw [if_neg (by tauto)]

/-- C5 witness: both branches of the id computation at concrete inputs. -/
theorem C5_witness :
    (generateArticleId "x".data "t".data "s".data = Sha1.sha1Hex16 "x".data ∧
     generateArticleId "x".data "t".data "s".data =
       generateArticleId "x".data "t2".data "s2".data) ∧
    generateArticleId ([] : List Char) "t".data "s".data =
      Sha1.sha1Hex16 ("t".data ++ "s".data) :=
  ⟨(C5_id_from_hash "x".data "t".data "s".data "t2".data "s2".data).1
      ⟨by decide, by decide⟩,
   (C5_id_from_hash [] "t".data "s".data "t".data "s".data).2 (Or.inl rfl)⟩

/-- C1: the claim that every id returned by `selectArticlesWithAI` (and
hence `selectTopArticles`) belongs to the candidate ids is false: the code
only truncates the oracle response to `maxCount` and performs no membership
validation, so a fabricated id in the oracle response is returned to the
caller verbatim. -/
theorem C1_counterexample :
    SelectArticles.selectTopArticles [sampleArticle] 15 (.ok (some ["fake".data])) =
      .ok ["fake".data] ∧
    "fake".data ∉ SelectArticles.candidateIds [sampleArticle] := by
  refine ⟨rfl, by decide⟩

/-- C1 (amended): `selectArticlesWithAI` (as called by `selectTopArticles`)
returns exactly the oracle ids truncated to `maxCount`; in particular the
result never exceeds `maxCount` ids, and whenever the oracle honors its
contract and returns only candidate ids, every returned id is a candidate
id. No fabricated id can come from anywhere but the oracle response. -/
theorem C1_selected_ids (articles : List Article) (maxCount : Nat)
    (ids result : List (List Char))
    (h : SelectArticles.selectTopArticles articles maxCount (.ok (some ids)) =
      .ok result) :
    result = ids.take maxCount ∧ result.length ≤ maxCount ∧
    ((∀ i ∈ ids, i ∈ SelectArticles.candidateIds articles) →
      ∀ i ∈ result, i ∈ SelectArticles.candidateIds articles) := by
  unfold SelectArticles.selectTopArticles at h
  by_cases he : (SelectArticles.filterAIArticles articles).isEmpty
  · rw [if_pos he] at h
    exact absurd h (by simp)
  · rw [if_neg he] at h
    unfold SelectArticles.selectArticlesWithAI at h
    have hres : result = ids.take maxCount := by
      injection h with h'
      exact h'.symm
    subst hres
    refine ⟨rfl, ?_, ?_⟩
    · exact List.length_take_le maxCount ids

    · intro hsub i hi
      exact hsub i (List.take_subset maxCount ids hi)

/-- C1 witness: the truncation-and-subset property at a concrete input. -/
theorem C1_witness :
    ["id1".data] = (["id1".data] : List (List Char)).take 15 ∧
    (["id1".data] : List (List Char)).length ≤ 15 ∧
    ((∀ i ∈ (["id1".data] : List (List Char)),
        i ∈ SelectArticles.candidateIds [sampleArticle]) →
      ∀ i ∈ (["id1".data] : List (List Char)),
        i ∈ SelectArticles.candidateIds [sampleArticle]) :=
  C1_selected_ids [sampleArticle] 15 ["id1".data] ["id1".data] rfl

/-- C6: deduplication by link then by normalized title is idempotent, its
output is a sublist of the input (the relative order is preserved), and
every surviving article is the first among the link-deduplicated articles
to carry its normalized-title key, itself the first in the input to carry
its link key. -/
theorem C6_dedup_idempotent (xs : List Article) :
    SelectArticles.deduplicateArticles (SelectArticles.deduplicateArticles xs) =
      SelectArticles.deduplicateArticles xs ∧
    List.Sublist (SelectArticles.deduplicateArticles xs) xs ∧
    ∀ x ∈ SelectArticles.deduplicateArticles xs,
      ((uniqueBy xs (fun a => a.link)).filter
          (fun y => decide (normalizeTitleForDedup y.title =
            normalizeTitleForDedup x.title))).head? = some x ∧
      (xs.filter (fun y => decide (y.link = x.link))).head? = some x := by
  refine ⟨deduplicateArticles_idem xs, deduplicateArticles_sublist xs, ?_⟩
  intro x hx
  have hx2 : x ∈ uniqueByAux (fun a => normalizeTitleForDedup a.title)
      (uniqueBy xs (fun a => a.link)) [] := hx
  constructor
  · exact (uniqueByAux_first _ _ _ x hx2).2
  · have hx1 : x ∈ uniqueByAux (fun a => a.link) xs [] :=
      (uniqueByAux_sublist (fun a => normalizeTitleForDedup a.title)
        (uniqueBy xs (fun a => a.link)) []).subset hx2
    exact (uniqueByAux_first (fun a => a.link) xs [] x hx1).2

/-- C6 witness: idempotence, order preservation and first-occurrence at a
concrete two-article input sharing one link. -/
theorem C6_witness :
    SelectArticles.deduplicateArticles
        (SelectArticles.deduplicateArticles [sampleArticle, sampleArticleDupLink]) =
      SelectArticles.deduplicateArticles [sampleArticle, sampleArticleDupLink] ∧
    List.Sublist (SelectArticles.deduplicateArticles [sampleArticle, sampleArticleDupLink])
      [sampleArticle, sampleArticleDupLink] ∧
    ((uniqueBy [sampleArticle, sampleArticleDupLink] (fun a => a.link)).filter
        (fun y => decide (normalizeTitleForDedup y.title =
          normalizeTitleForDedup sampleArticle.title))).head? = some sampleArticle ∧
    ([sampleArticle, sampleArticleDupLink].filter
        (fun y => decide (y.link = sampleArticle.link))).head? = some sampleArticle :=
  ⟨(C6_dedup_idempotent [sampleArticle, sampleArticleDupLink]).1,
   (C6_dedup_idempotent [sampleArticle, sampleArticleDupLink]).2.1,
   (C6_dedup_idempotent [sampleArticle, sampleArticleDupLink]).2.2 sampleArticle (by decide)⟩

/-- C8: with the Pass-A oracle available and more than 100 candidates,
`filterAIArticles` partitions the compact candidate list into exactly
`⌈N/100⌉` contiguous batches (each nonempty, none longer than 100), issues
exactly one oracle call per batch in order, never aborts on a failing call
(the result is `.ok` for every oracle behavior), collects for each batch
the ids of a successful response and nothing for a failed one, and keeps
exactly the articles whose id was collected. -/
theorem C8_passA_batching (articles : List Article)
    (respond : Nat → TestPodcast.BatchResponse) (h : 100 < articles.length) :
    ∃ calls kept,
      TestPodcast.filterAIArticles true articles respond = .ok (calls, kept) ∧
      calls = TestPodcast.chunks100 (articles.map TestPodcast.toFilterItem) ∧
      calls.length = (articles.length + 99) / 100 ∧
      calls.flatten = articles.map TestPodcast.toFilterItem ∧
      (∀ c ∈ calls, c.length ≤ 100 ∧ c ≠ []) ∧
      TestPodcast.collectIds respond calls 0 =
        ((List.range calls.length).map (fun j =>
          match respond j with
          | .ok ids => ids
          | .error _ => [])).flatten ∧
      kept = articles.filter (fun a => a.id ∈ TestPodcast.collectIds respond calls 0) := by
  have hne : articles.isEmpty = false := by
    cases articles with
    | nil => simp at h
    | cons a rest => rfl
  have hlen : 100 < (articles.map TestPodcast.toFilterItem).length := by
    simpa using h
  have heq : TestPodcast.filterAIArticles true articles respond =
      .ok (TestPodcast.chunks100 (articles.map TestPodcast.toFilterItem),
        articles.filter (fun a => a.id ∈ TestPodcast.collectIds respond
          (TestPodcast.chunks100 (articles.map TestPodcast.toFilterItem)) 0)) := by
    unfold TestPodcast.filterAIArticles
    rw [hne]
    simp only [Bool.false_eq_true, if_false, Bool.not_true, if_pos hlen]
  obtain ⟨hflat, hcount, hmem⟩ := chunks100Go_spec
    (articles.map TestPodcast.toFilterItem).length (articles.map TestPodcast.toFilterItem)
    (le_refl _)
  refine ⟨TestPodcast.chunks100 (articles.map TestPodcast.toFilterItem),
    articles.filter (fun a => a.id ∈ TestPodcast.collectIds respond
      (TestPodcast.chunks100 (articles.map TestPodcast.toFilterItem)) 0),
    heq, rfl, ?_, hflat, hmem, ?_, rfl⟩
  · rw [show TestPodcast.chunks100 (articles.map TestPodcast.toFilterItem) =
        TestPodcast.chunks100Go (articles.map TestPodcast.toFilterItem).length
          (articles.map TestPodcast.toFilterItem) from rfl, hcount]
    simp
  · rw [collectIds_eq respond]
    simp

/-- C8 witness: 120 candidates produce exactly two batches, even when the
first oracle call fails. -/
theorem C8_witness :
    100 < (List.replicate 120 sampleArticle).length ∧
    ∃ calls kept,
      TestPodcast.filterAIArticles true (List.replicate 120 sampleArticle) sampleRespond =
        .ok (calls, kept) ∧ calls.length = 2 := by
  have h : 100 < (List.replicate 120 sampleArticle).length := by
    rw [List.length_replicate]
    omega
  refine ⟨h, ?_⟩
  obtain ⟨calls, kept, h1, _, h3, _⟩ :=
    C8_passA_batching (List.replicate 120 sampleArticle) sampleRespond h
  refine ⟨calls, kept, h1, ?_⟩
  rw [h3, List.length_replicate]

/-- C7: for every per-feed fetch outcome, `fetchAllFeeds` returns a
permutation of the union of the per-feed results, sorted by descending
date key; a feed whose fetch or parse fails contributes the empty list,
so one failing source never removes the articles of the others and never
aborts the batch (the embedding is total). -/
theorem C7_feed_isolation (parse : List Char → Except Unit (List RSS.RssItem))
    (nowISO : List Char) (getTime : List Char → Int) :
    (RSS.fetchAllFeeds parse nowISO getTime).Perm
      ((RSS.RSS_FEEDS.map (fun u => RSS.fetchFeed u (parse u) nowISO)).flatten) ∧
    (RSS.fetchAllFeeds parse nowISO getTime).Pairwise
      (fun a b => RSS.dateKey getTime b ≤ RSS.dateKey getTime a) ∧
    ∀ u e, parse u = .error e → RSS.fetchFeed u (parse u) nowISO = [] := by
  refine ⟨?_, ?_, ?_⟩
  · exact List.mergeSort_perm _ _
  · have hs := @List.sorted_mergeSort Article
      (fun a b : Article => decide (RSS.dateKey getTime b ≤ RSS.dateKey getTime a))
      (fun a b c hab hbc => by
        simp only [decide_eq_true_eq] at *
        omega)
      (fun a b => by
        simp only [Bool.or_eq_true, decide_eq_true_eq]
        omega)
      ((RSS.RSS_FEEDS.map (fun u => RSS.fetchFeed u (parse u) nowISO)).flatten)
    refine List.Pairwise.imp ?_ hs
    intro a b hab
    simpa using hab
  · intro u e he
    unfold RSS.fetchFeed
    rw [he]

/-- C7 witness: with only the first hard-coded feed succeeding, the failing
second feed contributes nothing and the result is still a permutation of
the per-feed union. -/
theorem C7_witness :
    (RSS.fetchAllFeeds sampleParse "now".data (fun _ => 0)).Perm
      ((RSS.RSS_FEEDS.map (fun u => RSS.fetchFeed u (sampleParse u) "now".data)).flatten) ∧
    RSS.fetchFeed "https://techcrunch.com/category/artificial-intelligence/feed/".data
      (sampleParse "https://techcrunch.com/category/artificial-intelligence/feed/".data)
      "now".data = [] :=
  ⟨(C7_feed_isolation sampleParse "now".data (fun _ => 0)).1,
   (C7_feed_isolation sampleParse "now".data (fun _ => 0)).2.2
     "https://techcrunch.com/category/artificial-intelligence/feed/".data () rfl⟩

/-- C9: the claim that `getMP3Duration` never rejects is false: when the
probe exits with code 0 but its output does not parse as a number, the
promise is rejected. (The successful-probe path also resolves the parsed
value as is, which need not be an integer: `"1.5"` resolves to `3/2`.) -/
theorem C9_counterexample :
    Audio.getMP3Duration 1000 true (.closed 0 "garbage".data) =
      .error "Could not parse duration from ffprobe output".data ∧
    Audio.getMP3Duration 1000 true (.closed 0 "1.5".data) = .ok (3 / 2 : ℚ) := by
  constructor
  · rfl
  · simp +decide [Audio.getMP3Duration, Audio.jsParseFloat, Audio.digitsVal, trimL]
    norm_num

/-- C9 (amended): `getMP3Duration` resolves the size heuristic — a
non-negative integer number of seconds — whenever the temp-file write
fails, the probe spawn errors, or the probe exits with a nonzero code; it
resolves the exact parsed probe value (possibly fractional) when the probe
exits 0 with parsable output; and it rejects exactly when the probe exits 0
with unparsable output. -/
theorem C9_duration_fallback (bufferLen : Nat) (writeOk : Bool)
    (probe : Audio.ProbeOutcome) :
    (∀ e, Audio.getMP3Duration bufferLen writeOk probe = .error e →
      ∃ out, probe = .closed 0 out ∧ Audio.jsParseFloat (trimL out) = none) ∧
    (writeOk = false ∨ probe = .spawnErr ∨
        (∃ c out, probe = .closed c out ∧ c ≠ 0) →
      Audio.getMP3Duration bufferLen writeOk probe =
        .ok (Audio.sizeHeuristic bufferLen : ℚ)) ∧
    (0 : Int) ≤ Audio.sizeHeuristic bufferLen ∧
    (∀ out v, writeOk = true → probe = .closed 0 out →
      Audio.jsParseFloat (trimL out) = some v →
      Audio.getMP3Duration bufferLen writeOk probe = .ok v) := by
  refine ⟨?_, ?_, ?_, ?_⟩
  · intro e he
    cases writeOk with
    | false => simp [Audio.getMP3Duration] at he
    | true =>
      cases probe with
      | spawnErr => simp [Audio.getMP3Duration] at he
      | closed code out =>
        by_cases hc : code = 0
        · subst hc
          refine ⟨out, rfl, ?_⟩
          simp only [Audio.getMP3Duration, Bool.not_true, Bool.false_eq_true,
            if_false, if_pos rfl] at he
          cases hp : Audio.jsParseFloat (trimL out) with
          | none => rfl
          | some v => rw [hp] at he; exact absurd he (by simp)
        · rw [show Audio.getMP3Duration bufferLen true (.closed code out) =
              .ok (Audio.sizeHeuristic bufferLen : ℚ) by
            simp [Audio.getMP3Duration, hc]] at he
          exact absurd he (by simp)
  · rintro (rfl | rfl | ⟨c, out, rfl, hc⟩)
    · simp [Audio.getMP3Duration]
    · simp [Audio.getMP3Duration]
    · simp [Audio.getMP3Duration, hc]
  · unfold Audio.sizeHeuristic Audio.jsRound
    apply Int.le_floor.mpr
    push_cast
    positivity
  · intro out v hw hp hv
    subst hw hp
    simp [Audio.getMP3Duration, hv]

/-- C9 witness: the spec scenario — probe unavailable, 640 KB buffer —
resolves the heuristic estimate, which equals 120 seconds. -/
theorem C9_witness :
    Audio.getMP3Duration (640 * 1024) true .spawnErr =
      .ok (Audio.sizeHeuristic (640 * 1024) : ℚ) ∧
    Audio.sizeHeuristic (640 * 1024) = 120 :=
  ⟨(C9_duration_fallback (640 * 1024) true .spawnErr).2.1 (Or.inr (Or.inl rfl)),
   by unfold Audio.sizeHeuristic Audio.jsRound; norm_num⟩
